import Mathlib

/-!
# Verification of the iterate agent-core utilities

Shallow embedding of the repository's pure utility functions and of the
event-sourced agent core, with proofs of the specified properties.

Embedded directly from source where the implementation is present under
`src/` (`tryParseJSON`, `ensureString`, `hashStringToRange` from
`apps/os/backend/utils/utils.ts`; `waitUntil` from `apps/os/env.ts`).
The status-indicator renderer (`resolveStatusIndicatorText`,
`buildSlackThreadStatusPayload`) and the agent-core fold engine are
modelled from the specification: only their unit tests and test harness
appear under `src/`.
-/

/-! ## 32-bit hashing (`hashStringToRange`, utils.ts) -/

/-- JavaScript ToInt32: wrap an integer into the signed 32-bit range
`[-2^31, 2^31)`, as performed by the bitwise operators `<<` and `&`. -/
def toInt32 (x : Int) : Int :=
  (x + 2 ^ 31) % 2 ^ 32 - 2 ^ 31

/-- One step of the hash loop in `hashStringToRange`:
`hash = (hash << 5) - hash + char; hash = hash & hash`.
`hash << 5` wraps the shifted value to 32 bits; the subtraction and the
addition of the (16-bit) char code are exact in a 64-bit float; `hash & hash`
converts the result back to a signed 32-bit integer. -/
def hashStep (hash : Int) (c : Nat) : Int :=
  toInt32 (toInt32 (hash * 32) - hash + c)

/-- The accumulated hash of `hashStringToRange` over the string's sequence of
UTF-16 code units (`charCodeAt` values), starting from 0. -/
def jsHash (codeUnits : List Nat) : Int :=
  codeUnits.foldl hashStep 0

/-- Embedded from `src/apps/os/backend/utils/utils.ts` `hashStringToRange`:
hash the string's code units and return `Math.abs(hash) % max`. -/
def hashStringToRange (codeUnits : List Nat) (max : Int) : Int :=
  (Int.natAbs (jsHash codeUnits) : Int) % max

theorem toInt32_lb (x : Int) : -2 ^ 31 ≤ toInt32 x := by
  have h : 0 ≤ (x + 2 ^ 31) % 2 ^ 32 := Int.emod_nonneg _ (by norm_num)
  unfold toInt32
  omega

theorem toInt32_ub (x : Int) : toInt32 x < 2 ^ 31 := by
  have h : (x + 2 ^ 31) % 2 ^ 32 < 2 ^ 32 := Int.emod_lt_of_pos _ (by norm_num)
  unfold toInt32
  omega

theorem jsHash_int32 (codeUnits : List Nat) :
    -2 ^ 31 ≤ jsHash codeUnits ∧ jsHash codeUnits < 2 ^ 31 := by
  unfold jsHash
  induction codeUnits using List.reverseRecOn with
  | nil => norm_num
  | append_singleton xs x _ =>
    rw [List.foldl_append]
    exact ⟨toInt32_lb _, toInt32_ub _⟩

/-- C9: for every string (sequence of UTF-16 code units) and every integer
`max ≥ 1`, `hashStringToRange` returns `n` with `0 ≤ n < max`, the
accumulated hash being wrapped to signed 32-bit range at every step
(so in particular it stays in `[-2^31, 2^31)` throughout). -/
theorem hashStringToRange_in_range (codeUnits : List Nat) (max : Int)
    (hmax : 1 ≤ max) :
    0 ≤ hashStringToRange codeUnits max ∧
      hashStringToRange codeUnits max < max ∧
      -2 ^ 31 ≤ jsHash codeUnits ∧ jsHash codeUnits < 2 ^ 31 := by
  refine ⟨Int.emod_nonneg _ (by omega), ?_, (jsHash_int32 codeUnits).1,
    (jsHash_int32 codeUnits).2⟩
  exact Int.emod_lt_of_pos _ (by omega)

/-- Witness for C9 at the code units of `"hi"` (104, 105) and `max = 7`. -/
theorem hashStringToRange_in_range_witness :
    (1 : Int) ≤ 7 ∧
      (0 ≤ hashStringToRange [104, 105] 7 ∧
        hashStringToRange [104, 105] 7 < 7 ∧
        -2 ^ 31 ≤ jsHash [104, 105] ∧ jsHash [104, 105] < 2 ^ 31) :=
  ⟨by norm_num, hashStringToRange_in_range [104, 105] 7 (by norm_num)⟩

/-! ## Background task error isolation (`waitUntil`, env.ts) -/

/-- A JavaScript `Error` as used by `waitUntil`: a message plus an optional
`cause` chained onto it. -/
structure JsError where
  message : String
  cause : Option String
deriving DecidableEq

/-- Embedded from `src/apps/os/env.ts` `waitUntil`: the settled outcome of the
scheduled promise is piped through `.catch`, which attaches the error as the
`cause` of the preemptively created error and hands it to `logger.error`.
The first component is the outcome handed on to the platform `waitUntil`
(always fulfilled: the rejection is consumed by the `catch`); the second is
the list of errors sent to the logging sink. -/
def waitUntilSettle (outcome : Except String Unit) :
    Except String Unit × List JsError :=
  match outcome with
  | Except.ok _ => (Except.ok (), [])
  | Except.error e =>
      (Except.ok (), [{ message := "Error in waitUntil callback", cause := some e }])

/-- C8: for every promise outcome handed to `waitUntil`, the wrapper returns
normally — the chained promise is always fulfilled, never rejected — and if
the promise rejected with error `e`, then `e` is sent to the logging sink as
the cause of the logged error; nothing is logged on success. -/
theorem waitUntil_catches_and_logs (outcome : Except String Unit) :
    (waitUntilSettle outcome).1 = Except.ok () ∧
      (∀ e, outcome = Except.error e →
        (waitUntilSettle outcome).2 =
          [{ message := "Error in waitUntil callback", cause := some e }]) ∧
      (outcome = Except.ok () → (waitUntilSettle outcome).2 = []) := by
  cases outcome with
  | ok u =>
    refine ⟨rfl, ?_, fun _ => rfl⟩
    intro e he
    cases he
  | error e =>
    refine ⟨rfl, ?_, ?_⟩
    · intro e2 he
      cases he
      rfl
    · intro h
      cases h

/-- Witness for C8 at the outcome `error "boom"`. -/
theorem waitUntil_catches_and_logs_witness :
    (waitUntilSettle (Except.error "boom")).1 = Except.ok () ∧
      (∀ e, (Except.error "boom" : Except String Unit) = Except.error e →
        (waitUntilSettle (Except.error "boom")).2 =
          [{ message := "Error in waitUntil callback", cause := some e }]) ∧
      ((Except.error "boom" : Except String Unit) = Except.ok () →
        (waitUntilSettle (Except.error "boom")).2 = []) :=
  waitUntil_catches_and_logs (Except.error "boom")


/-! ## JSON values and the platform `JSON.parse` / `JSON.stringify` -/

mutual
/-- A JSON value (and, for our purposes, a JavaScript value): `null`,
booleans, numbers (restricted to integers in this model — no claim touches
fractional numbers), strings, arrays and objects with insertion-ordered
fields. Arrays and object field lists are their own mutual inductives so
that all recursion over values is structural. -/
inductive Json where
| null : Json
| bool (b : Bool) : Json
| num (n : Int) : Json
| str (s : String) : Json
| arr (elems : JsonList) : Json
| obj (fields : JsonFields) : Json

/-- A list of JSON values (array contents). -/
inductive JsonList where
| nil : JsonList
| cons (head : Json) (tail : JsonList) : JsonList

/-- An insertion-ordered list of JSON object fields. -/
inductive JsonFields where
| nil : JsonFields
| cons (key : String) (val : Json) (tail : JsonFields) : JsonFields
end

/-- The opening-brace character. -/
def lbrace : Char := Char.ofNat 123

/-- The closing-brace character. -/
def rbrace : Char := Char.ofNat 125

/-- JSON insignificant whitespace. -/
def isJsonWs (c : Char) : Bool :=
  c = ' ' || c = '\n' || c = '\t' || c = '\r'

/-- Drop leading JSON whitespace. -/
def skipWs : List Char → List Char
| [] => []
| c :: rest => if isJsonWs c then skipWs rest else c :: rest

/-- Value of a hex digit, if the character is one. -/
def hexVal (c : Char) : Option Nat :=
  if '0' ≤ c ∧ c ≤ '9' then some (c.toNat - 48)
  else if 'a' ≤ c ∧ c ≤ 'f' then some (c.toNat - 87)
  else if 'A' ≤ c ∧ c ≤ 'F' then some (c.toNat - 55)
  else none

/-- Parse the body of a JSON string (after the opening quote), returning the
decoded characters and the remaining input after the closing quote. -/
def parseStringBody : List Char → Option (List Char × List Char)
| [] => none
| c :: rest =>
  if c = '"' then some ([], rest)
  else if c = '\\' then
    match rest with
    | [] => none
    | e :: rest2 =>
      if e = 'u' then
        match rest2 with
        | h1 :: h2 :: h3 :: h4 :: rest3 =>
          match hexVal h1, hexVal h2, hexVal h3, hexVal h4 with
          | some v1, some v2, some v3, some v4 =>
            match parseStringBody rest3 with
            | some (s, rem) =>
              some (Char.ofNat (((v1 * 16 + v2) * 16 + v3) * 16 + v4) :: s, rem)
            | none => none
          | _, _, _, _ => none
        | _ => none
      else
        let ec : Option Char :=
          if e = '"' then some '"'
          else if e = '\\' then some '\\'
          else if e = '/' then some '/'
          else if e = 'b' then some (Char.ofNat 8)
          else if e = 'f' then some (Char.ofNat 12)
          else if e = 'n' then some '\n'
          else if e = 'r' then some '\r'
          else if e = 't' then some '\t'
          else none
        match ec with
        | some d =>
          match parseStringBody rest2 with
          | some (s, rem) => some (d :: s, rem)
          | none => none
        | none => none
  else
    match parseStringBody rest with
    | some (s, rem) => some (c :: s, rem)
    | none => none

/-- Accumulate decimal digits. -/
def digitsAux : List Char → Nat → Nat × List Char
| [], acc => (acc, [])
| c :: rest, acc =>
  if c.isDigit then digitsAux rest (acc * 10 + (c.toNat - 48)) else (acc, c :: rest)

/-- Parse a JSON integer literal (optional minus, one or more digits); inputs
with a fraction or exponent are rejected by this model. -/
def parseIntLit : List Char → Option (Int × List Char)
| [] => none
| c :: rest =>
  if c = '-' then
    match rest with
    | d :: _ =>
      if d.isDigit then
        let (n, rem) := digitsAux rest 0
        some (-(n : Int), rem)
      else none
    | [] => none
  else if c.isDigit then
    let (n, rem) := digitsAux (c :: rest) 0
    some ((n : Int), rem)
  else none

/-- Parse the elements of a non-empty JSON array (positioned at the first
element), via the supplied parser for single values; consumes the closing
bracket. -/
def parseElems (pv : List Char → Option (Json × List Char)) :
    Nat → List Char → Option (JsonList × List Char)
| 0, _ => none
| fuel + 1, cs =>
  match pv cs with
  | none => none
  | some (v, rest) =>
    match skipWs rest with
    | c :: rest2 =>
      if c = ',' then
        match parseElems pv fuel rest2 with
        | some (vs, rem) => some (JsonList.cons v vs, rem)
        | none => none
      else if c = ']' then some (JsonList.cons v JsonList.nil, rest2)
      else none
    | [] => none

/-- Parse the members of a non-empty JSON object (positioned at the first
key), via the supplied parser for single values; consumes the closing
brace. -/
def parseFields (pv : List Char → Option (Json × List Char)) :
    Nat → List Char → Option (JsonFields × List Char)
| 0, _ => none
| fuel + 1, cs =>
  match skipWs cs with
  | c :: rest =>
    if c = '"' then
      match parseStringBody rest with
      | some (k, rest2) =>
        match skipWs rest2 with
        | c2 :: rest3 =>
          if c2 = ':' then
            match pv rest3 with
            | some (v, rest4) =>
              match skipWs rest4 with
              | c3 :: rest5 =>
                if c3 = ',' then
                  match parseFields pv fuel rest5 with
                  | some (fs, rem) => some (JsonFields.cons (String.mk k) v fs, rem)
                  | none => none
                else if c3 = rbrace then
                  some (JsonFields.cons (String.mk k) v JsonFields.nil, rest5)
                else none
              | [] => none
            | none => none
          else none
        | [] => none
      | none => none
    else none
  | [] => none

/-- Parse one JSON value, fuel-bounded (the fuel bounds nesting depth and
container length; any fuel at least the input length suffices). -/
def parseVal : Nat → List Char → Option (Json × List Char)
| 0, _ => none
| fuel + 1, cs =>
  match skipWs cs with
  | [] => none
  | c :: rest =>
    if c = '"' then
      match parseStringBody rest with
      | some (s, rem) => some (Json.str (String.mk s), rem)
      | none => none
    else if c = lbrace then
      match skipWs rest with
      | c2 :: rest2 =>
        if c2 = rbrace then some (Json.obj JsonFields.nil, rest2)
        else
          match parseFields (parseVal fuel) fuel (c2 :: rest2) with
          | some (fs, rem) => some (Json.obj fs, rem)
          | none => none
      | [] => none
    else if c = '[' then
      match skipWs rest with
      | c2 :: rest2 =>
        if c2 = ']' then some (Json.arr JsonList.nil, rest2)
        else
          match parseElems (parseVal fuel) fuel (c2 :: rest2) with
          | some (vs, rem) => some (Json.arr vs, rem)
          | none => none
      | [] => none
    else if c = 't' then
      match rest with
      | 'r' :: 'u' :: 'e' :: rem => some (Json.bool true, rem)
      | _ => none
    else if c = 'f' then
      match rest with
      | 'a' :: 'l' :: 's' :: 'e' :: rem => some (Json.bool false, rem)
      | _ => none
    else if c = 'n' then
      match rest with
      | 'u' :: 'l' :: 'l' :: rem => some (Json.null, rem)
      | _ => none
    else
      match parseIntLit (c :: rest) with
      | some (n, rem) => some (Json.num n, rem)
      | none => none

/-- Model of the JavaScript built-in `JSON.parse`: `some` of the parsed value
on a complete, valid JSON document, `none` (an exception in JavaScript)
otherwise. -/
def parseJSON (s : String) : Option Json :=
  match parseVal (s.data.length + 1) s.data with
  | some (j, rem) => if skipWs rem = [] then some j else none
  | none => none

/-- Hex digit character for a value below 16. -/
def hexDigit (n : Nat) : Char :=
  if n < 10 then Char.ofNat (48 + n) else Char.ofNat (87 + n)

/-- Escape one character as inside a JSON string literal. -/
def escapeChar (c : Char) : List Char :=
  if c = '"' then ['\\', '"']
  else if c = '\\' then ['\\', '\\']
  else if c = '\n' then ['\\', 'n']
  else if c = '\r' then ['\\', 'r']
  else if c = '\t' then ['\\', 't']
  else if c = Char.ofNat 8 then ['\\', 'b']
  else if c = Char.ofNat 12 then ['\\', 'f']
  else if c.toNat < 32 then
    ['\\', 'u', '0', '0', hexDigit (c.toNat / 16), hexDigit (c.toNat % 16)]
  else [c]

/-- Escape a list of characters, closing with the final quote. -/
def escapeBody : List Char → List Char
| [] => ['"']
| c :: rest => escapeChar c ++ escapeBody rest

/-- Serialize a string as a JSON string literal. -/
def quoteString (s : String) : String :=
  String.mk ('"' :: escapeBody s.data)

mutual
/-- Model of the JavaScript built-in `JSON.stringify` on JSON values:
compact serialization, object fields in insertion order. -/
def stringify : Json → String
| Json.null => "null"
| Json.bool true => "true"
| Json.bool false => "false"
| Json.num n => toString n
| Json.str s => quoteString s
| Json.arr elems => "[" ++ stringifyArr elems ++ "]"
| Json.obj fields => String.mk [lbrace] ++ stringifyObj fields ++ String.mk [rbrace]

/-- Comma-joined serialization of array elements. -/
def stringifyArr : JsonList → String
| JsonList.nil => ""
| JsonList.cons h JsonList.nil => stringify h
| JsonList.cons h t => stringify h ++ "," ++ stringifyArr t

/-- Comma-joined serialization of object fields. -/
def stringifyObj : JsonFields → String
| JsonFields.nil => ""
| JsonFields.cons k v JsonFields.nil => quoteString k ++ ":" ++ stringify v
| JsonFields.cons k v t => quoteString k ++ ":" ++ stringify v ++ "," ++ stringifyObj t
end

/-! ## `ensureString` and `tryParseJSON` (utils.ts) -/

/-- Embedded from `src/apps/os/backend/utils/utils.ts` `ensureString`:
`null`/`undefined` (here `none`) become the empty string, strings pass
through unchanged, everything else is `JSON.stringify`ed. -/
def ensureString (value : Option Json) : String :=
  match value with
  | none => ""
  | some Json.null => ""
  | some (Json.str s) => s
  | some j => stringify j

mutual
/-- Model of the JavaScript `String()` coercion applied by `JSON.parse` to a
non-string argument: strings pass through, objects become
`"[object Object]"`, arrays join their elements with commas. -/
def jsToStringCoerce : Json → String
| Json.str s => s
| Json.null => "null"
| Json.bool true => "true"
| Json.bool false => "false"
| Json.num n => toString n
| Json.arr elems => jsToStringItems elems
| Json.obj _ => "[object Object]"

/-- Comma-joined `String()` coercion of array elements
(`Array.prototype.toString`); `null` elements become empty. -/
def jsToStringItems : JsonList → String
| JsonList.nil => ""
| JsonList.cons Json.null JsonList.nil => ""
| JsonList.cons Json.null t => "," ++ jsToStringItems t
| JsonList.cons h JsonList.nil => jsToStringCoerce h
| JsonList.cons h t => jsToStringCoerce h ++ "," ++ jsToStringItems t
end

/-- Embedded from `src/apps/os/backend/utils/utils.ts` `tryParseJSON`:
`JSON.parse` the value (coerced to a string as `JSON.parse` does), returning
the original value if parsing fails. -/
def tryParseJSON (value : Json) : Json :=
  match parseJSON (jsToStringCoerce value) with
  | some j => j
  | none => value

/-! ## Status indicator renderer (spec-modelled) -/

/-- Split a path expression on dots, accumulator reversed per segment. -/
def splitDotAux : List Char → List Char → List String
| [], acc => [String.mk acc.reverse]
| c :: rest, acc =>
  if c = '.' then String.mk acc.reverse :: splitDotAux rest []
  else splitDotAux rest (c :: acc)

/-- Split a path expression such as `args.command` into its segments. -/
def splitPath (expr : List Char) : List String :=
  splitDotAux expr []

/-- Look up an object field by key; the last binding wins, matching
JavaScript object spread semantics. -/
def lookupField : JsonFields → String → Option Json
| JsonFields.nil, _ => none
| JsonFields.cons k v rest, key =>
  match lookupField rest key with
  | some r => some r
  | none => if k = key then some v else none

/-- Resolve a dot path against a JSON value: each segment is a field access
on an object; any miss (or access on a non-object) yields `none`
(JavaScript `undefined`). -/
def resolvePath : Json → List String → Option Json
| j, [] => some j
| Json.obj fields, key :: rest =>
  match lookupField fields key with
  | some v => resolvePath v rest
  | none => none
| _, _ :: _ => none

/-- Evaluate one placeholder expression against the context and render it as
a string with `ensureString` (unresolved paths become empty). -/
def evalTemplateExpr (ctx : Json) (expr : List Char) : String :=
  ensureString (resolvePath ctx (splitPath expr))

/-- Scanner state for the template renderer: in literal text, just after a
dollar sign, or inside a placeholder with the expression characters read so
far. -/
inductive RScan where
| outside : RScan
| afterDollar : RScan
| insideHole (acc : List Char) : RScan

/-- Modelled from the spec: the `${<path-expression>}` template scanner of
the status-indicator renderer, whose implementation file is absent from
`src/` (only its unit tests are present). Literal characters pass through; a
`${...}` placeholder is replaced by its evaluated, stringified value; an
unclosed placeholder is left verbatim. -/
def renderAux (ctx : Json) : List Char → RScan → List Char
| [], RScan.outside => []
| [], RScan.afterDollar => ['$']
| [], RScan.insideHole acc => '$' :: lbrace :: acc
| c :: rest, RScan.outside =>
  if c = '$' then renderAux ctx rest RScan.afterDollar
  else c :: renderAux ctx rest RScan.outside
| c :: rest, RScan.afterDollar =>
  if c = lbrace then renderAux ctx rest (RScan.insideHole [])
  else if c = '$' then '$' :: renderAux ctx rest RScan.afterDollar
  else '$' :: c :: renderAux ctx rest RScan.outside
| c :: rest, RScan.insideHole acc =>
  if c = rbrace then (evalTemplateExpr ctx acc).data ++ renderAux ctx rest RScan.outside
  else renderAux ctx rest (RScan.insideHole (acc ++ [c]))

/-- Render a whole template against a context value. -/
def renderTemplate (ctx : Json) (template : String) : String :=
  String.mk (renderAux ctx template.data RScan.outside)

/-- Modelled from the spec: `resolveStatusIndicatorText` (its implementation
file is absent from `src/`; only its unit tests are present). With no
template, return the `"🛠️ {toolName}..."` fallback. With a template, run the
tool arguments through `tryParseJSON` (embedded from utils.ts); a result
that is not an object — in particular any string that is not valid JSON —
degrades to the empty object. The template is evaluated against the context
`\x7bargs: parsedArgs, ...templateContext\x7d`. -/
def resolveStatusIndicatorText (toolName : String)
    (statusIndicatorText : Option String) (argsJson : Option Json)
    (templateContext : JsonFields) : String :=
  match statusIndicatorText with
  | none => "🛠️ " ++ toolName ++ "..."
  | some template =>
    let parsed : Json :=
      match argsJson with
      | none => Json.obj JsonFields.nil
      | some v => tryParseJSON v
    let args : Json :=
      match parsed with
      | Json.obj fields => Json.obj fields
      | _ => Json.obj JsonFields.nil
    renderTemplate (Json.obj (JsonFields.cons "args" args templateContext)) template

/-- The "writing" marker that selects the typing indicator. -/
def writingMarker : String := "✏️ writing"

/-- Does `s` start with `marker`? -/
def startsWithChars : List Char → List Char → Bool
| [], _ => true
| _ :: _, [] => false
| p :: ps, c :: cs => p = c && startsWithChars ps cs

/-- String prefix test used by the thread-status payload builder. -/
def strStartsWith (s marker : String) : Bool :=
  startsWithChars marker.data s.data

/-- The Slack thread status payload: a status line and, when busy, the
loading messages shown with it. -/
structure SlackThreadStatusPayload where
  status : String
  loading_messages : Option (List String)
deriving DecidableEq

/-- Modelled from the spec: `buildSlackThreadStatusPayload` (its
implementation file is absent from `src/`; only its unit tests are present).
`null` clears the indicator; a value starting with the writing marker maps
to the typing indicator; any other value maps to the thinking indicator. -/
def buildSlackThreadStatusPayload : Option String → SlackThreadStatusPayload
| none => { status := "", loading_messages := none }
| some v =>
  if strStartsWith v writingMarker then
    { status := "is typing...", loading_messages := some [v ++ "..."] }
  else
    { status := "is thinking...", loading_messages := some [v ++ "..."] }

/-! ## Agent core: event log and fold engine (spec-modelled) -/

/-- Modelled from the spec: the minimum core event vocabulary of the agent
core (its implementation is absent from `src/`; only its test harness is
present). -/
inductive CoreEvent where
| setSystemPrompt (prompt : String) : CoreEvent
| setModelOpts (model : String) : CoreEvent
| llmInputItem (item : String) : CoreEvent
| llmRequestStart (requestId : String) : CoreEvent
| llmRequestEnd (requestId : String) (success : Bool) : CoreEvent
| llmRequestCancel (requestId : String) : CoreEvent
deriving DecidableEq

/-- Modelled from the spec: the state derived by the pure fold — system
prompt, model options, ordered conversation items, and the identifier of
the in-flight LLM request, if any. -/
structure AgentCoreState where
  systemPrompt : String
  model : String
  inputItems : List String
  inFlightRequestId : Option String
deriving DecidableEq

/-- The state before any event. -/
def initialAgentState : AgentCoreState :=
  { systemPrompt := "", model := "", inputItems := [], inFlightRequestId := none }

/-- Modelled from the spec: the pure fold step applying one event to the
state. Terminal request events only close the matching in-flight request. -/
def reduceEvent (s : AgentCoreState) (e : CoreEvent) : AgentCoreState :=
  match e with
  | CoreEvent.setSystemPrompt p => { s with systemPrompt := p }
  | CoreEvent.setModelOpts m => { s with model := m }
  | CoreEvent.llmInputItem i => { s with inputItems := s.inputItems ++ [i] }
  | CoreEvent.llmRequestStart r => { s with inFlightRequestId := some r }
  | CoreEvent.llmRequestEnd r _ =>
    if s.inFlightRequestId = some r then { s with inFlightRequestId := none } else s
  | CoreEvent.llmRequestCancel r =>
    if s.inFlightRequestId = some r then { s with inFlightRequestId := none } else s

/-- Fold an ordered event list into state, from the initial state. -/
def foldEvents (events : List CoreEvent) : AgentCoreState :=
  events.foldl reduceEvent initialAgentState

/-- Modelled from the spec: one external call into the engine. A user input
item may carry the `triggerLLMRequest` flag and (standing in for the
injectable ID generator) the id the superseding request would get; the other
two inputs are the provider finishing the open request and an explicit
cancellation. -/
inductive EngineInput where
| userItem (item : String) (trigger : Bool) (newRequestId : String) : EngineInput
| finishRequest (success : Bool) : EngineInput
| cancelRequest : EngineInput

/-- Modelled from the spec: the events `addEvents` appends for one input.
A request-triggering input first cancels the open request, if any, before
starting the new one; terminal inputs close the open request. -/
def stepEngine (log : List CoreEvent) (inp : EngineInput) : List CoreEvent :=
  match inp with
  | EngineInput.userItem item false _ => log ++ [CoreEvent.llmInputItem item]
  | EngineInput.userItem item true rid =>
    match (foldEvents log).inFlightRequestId with
    | some old =>
      log ++ [CoreEvent.llmInputItem item, CoreEvent.llmRequestCancel old,
        CoreEvent.llmRequestStart rid]
    | none => log ++ [CoreEvent.llmInputItem item, CoreEvent.llmRequestStart rid]
  | EngineInput.finishRequest ok =>
    match (foldEvents log).inFlightRequestId with
    | some r => log ++ [CoreEvent.llmRequestEnd r ok]
    | none => log
  | EngineInput.cancelRequest =>
    match (foldEvents log).inFlightRequestId with
    | some r => log ++ [CoreEvent.llmRequestCancel r]
    | none => log

/-- The full event log emitted by a sequence of engine calls, starting from
the empty log. -/
def runEngine (inputs : List EngineInput) : List CoreEvent :=
  inputs.foldl stepEngine []

/-- How one event changes the number of currently open (unmatched) LLM
request starts. -/
def openDelta (n : Nat) (e : CoreEvent) : Nat :=
  match e with
  | CoreEvent.llmRequestStart _ => n + 1
  | CoreEvent.llmRequestEnd _ _ => n - 1
  | CoreEvent.llmRequestCancel _ => n - 1
  | _ => n

/-- Scan step tracking the current and the maximum number of simultaneously
open requests. -/
def openScanAcc (p : Nat × Nat) (e : CoreEvent) : Nat × Nat :=
  (openDelta p.1 e, Nat.max (openDelta p.1 e) p.2)

/-- Number of requests still open at the end of the log. -/
def openCountAfter (log : List CoreEvent) : Nat :=
  log.foldl openDelta 0

/-- Maximum number of simultaneously open requests anywhere in the log. -/
def maxOpenCount (log : List CoreEvent) : Nat :=
  (log.foldl openScanAcc (0, 0)).2

/-- Open-request count contributed by an optional in-flight id. -/
def flightCount : Option String → Nat
| none => 0
| some _ => 1

theorem foldl_openScan_fst (l : List CoreEvent) :
    ∀ cur mx, (l.foldl openScanAcc (cur, mx)).1 = l.foldl openDelta cur := by
  induction l with
  | nil => intro cur mx; rfl
  | cons e t ih =>
    intro cur mx
    rw [List.foldl_cons, List.foldl_cons]
    exact ih _ _

theorem openScan_run (l : List CoreEvent) :
    l.foldl openScanAcc (0, 0) = (openCountAfter l, maxOpenCount l) := by
  rw [Prod.ext_iff]
  exact ⟨foldl_openScan_fst l 0 0, rfl⟩

theorem openCountAfter_append (l es : List CoreEvent) :
    openCountAfter (l ++ es) = es.foldl openDelta (openCountAfter l) := by
  unfold openCountAfter
  rw [List.foldl_append]

theorem maxOpenCount_append (l es : List CoreEvent) :
    maxOpenCount (l ++ es) =
      (es.foldl openScanAcc (openCountAfter l, maxOpenCount l)).2 := by
  unfold maxOpenCount
  rw [List.foldl_append, openScan_run]

theorem foldEvents_append (l es : List CoreEvent) :
    foldEvents (l ++ es) = es.foldl reduceEvent (foldEvents l) := by
  unfold foldEvents
  rw [List.foldl_append]

theorem runEngine_append_one (inputs : List EngineInput) (i : EngineInput) :
    runEngine (inputs ++ [i]) = stepEngine (runEngine inputs) i := by
  unfold runEngine
  rw [List.foldl_append]
  rfl

theorem flightCount_le_one (o : Option String) : flightCount o ≤ 1 := by
  cases o <;> simp [flightCount]

theorem engine_state_invariant (inputs : List EngineInput) :
    openCountAfter (runEngine inputs) =
      flightCount (foldEvents (runEngine inputs)).inFlightRequestId ∧
    maxOpenCount (runEngine inputs) ≤ 1 := by
  induction inputs using List.reverseRecOn with
  | nil =>
    constructor
    · rfl
    · norm_num [runEngine, maxOpenCount]
  | append_singleton inputs i ih =>
    obtain ⟨ih1, ih2⟩ := ih
    rw [runEngine_append_one]
    cases i with
    | userItem item trigger rid =>
      cases trigger with
      | false =>
        have hstep : stepEngine (runEngine inputs)
            (EngineInput.userItem item false rid) =
            runEngine inputs ++ [CoreEvent.llmInputItem item] := rfl
        rw [hstep]
        constructor
        · rw [openCountAfter_append, foldEvents_append]
          exact ih1
        · rw [maxOpenCount_append]
          refine Nat.max_le.mpr ⟨?_, ih2⟩
          rw [ih1]
          exact flightCount_le_one _
      | true =>
        cases hF : (foldEvents (runEngine inputs)).inFlightRequestId with
        | none =>
          have hc : openCountAfter (runEngine inputs) = 0 := by rw [ih1, hF]; rfl
          have hstep : stepEngine (runEngine inputs)
              (EngineInput.userItem item true rid) =
              runEngine inputs ++
                [CoreEvent.llmInputItem item, CoreEvent.llmRequestStart rid] := by
            simp only [stepEngine, hF]
          rw [hstep]
          constructor
          · rw [openCountAfter_append, foldEvents_append, hc]
            have h2 : (List.foldl reduceEvent (foldEvents (runEngine inputs))
                [CoreEvent.llmInputItem item,
                  CoreEvent.llmRequestStart rid]).inFlightRequestId = some rid := rfl
            rw [h2]
            rfl
          · rw [maxOpenCount_append, hc]
            have hval : (List.foldl openScanAcc (0, maxOpenCount (runEngine inputs))
                [CoreEvent.llmInputItem item, CoreEvent.llmRequestStart rid]).2 =
                Nat.max 1 (Nat.max 0 (maxOpenCount (runEngine inputs))) := rfl
            rw [hval]
            exact Nat.max_le.mpr ⟨le_refl 1, Nat.max_le.mpr ⟨by norm_num, ih2⟩⟩
        | some old =>
          have hc : openCountAfter (runEngine inputs) = 1 := by rw [ih1, hF]; rfl
          have hstep : stepEngine (runEngine inputs)
              (EngineInput.userItem item true rid) =
              runEngine inputs ++
                [CoreEvent.llmInputItem item, CoreEvent.llmRequestCancel old,
                  CoreEvent.llmRequestStart rid] := by
            simp only [stepEngine, hF]
          rw [hstep]
          constructor
          · rw [openCountAfter_append, foldEvents_append, hc]
            have h2 : (List.foldl reduceEvent (foldEvents (runEngine inputs))
                [CoreEvent.llmInputItem item, CoreEvent.llmRequestCancel old,
                  CoreEvent.llmRequestStart rid]).inFlightRequestId = some rid := by
              simp [List.foldl_cons, reduceEvent, hF]
            rw [h2]
            rfl
          · rw [maxOpenCount_append, hc]
            have hval : (List.foldl openScanAcc (1, maxOpenCount (runEngine inputs))
                [CoreEvent.llmInputItem item, CoreEvent.llmRequestCancel old,
                  CoreEvent.llmRequestStart rid]).2 =
                Nat.max 1 (Nat.max 0 (Nat.max 1 (maxOpenCount (runEngine inputs)))) := rfl
            rw [hval]
            exact Nat.max_le.mpr ⟨le_refl 1, Nat.max_le.mpr ⟨by norm_num,
              Nat.max_le.mpr ⟨le_refl 1, ih2⟩⟩⟩
    | finishRequest ok =>
      cases hF : (foldEvents (runEngine inputs)).inFlightRequestId with
      | none =>
        have hstep : stepEngine (runEngine inputs) (EngineInput.finishRequest ok) =
            runEngine inputs := by
          simp only [stepEngine, hF]
        rw [hstep]
        exact ⟨ih1, ih2⟩
      | some r =>
        have hc : openCountAfter (runEngine inputs) = 1 := by rw [ih1, hF]; rfl
        have hstep : stepEngine (runEngine inputs) (EngineInput.finishRequest ok) =
            runEngine inputs ++ [CoreEvent.llmRequestEnd r ok] := by
          simp only [stepEngine, hF]
        rw [hstep]
        constructor
        · rw [openCountAfter_append, foldEvents_append, hc]
          have h2 : (List.foldl reduceEvent (foldEvents (runEngine inputs))
              [CoreEvent.llmRequestEnd r ok]).inFlightRequestId = none := by
            simp [List.foldl_cons, reduceEvent, hF]
          rw [h2]
          rfl
        · rw [maxOpenCount_append, hc]
          have hval : (List.foldl openScanAcc (1, maxOpenCount (runEngine inputs))
              [CoreEvent.llmRequestEnd r ok]).2 =
              Nat.max 0 (maxOpenCount (runEngine inputs)) := rfl
          rw [hval]
          exact Nat.max_le.mpr ⟨by norm_num, ih2⟩
    | cancelRequest =>
      cases hF : (foldEvents (runEngine inputs)).inFlightRequestId with
      | none =>
        have hstep : stepEngine (runEngine inputs) EngineInput.cancelRequest =
            runEngine inputs := by
          simp only [stepEngine, hF]
        rw [hstep]
        exact ⟨ih1, ih2⟩
      | some r =>
        have hc : openCountAfter (runEngine inputs) = 1 := by rw [ih1, hF]; rfl
        have hstep : stepEngine (runEngine inputs) EngineInput.cancelRequest =
            runEngine inputs ++ [CoreEvent.llmRequestCancel r] := by
          simp only [stepEngine, hF]
        rw [hstep]
        constructor
        · rw [openCountAfter_append, foldEvents_append, hc]
          have h2 : (List.foldl reduceEvent (foldEvents (runEngine inputs))
              [CoreEvent.llmRequestCancel r]).inFlightRequestId = none := by
            simp [List.foldl_cons, reduceEvent, hF]
          rw [h2]
          rfl
        · rw [maxOpenCount_append, hc]
          have hval : (List.foldl openScanAcc (1, maxOpenCount (runEngine inputs))
              [CoreEvent.llmRequestCancel r]).2 =
              Nat.max 0 (maxOpenCount (runEngine inputs)) := rfl
          rw [hval]
          exact Nat.max_le.mpr ⟨by norm_num, ih2⟩

/-- C3: folding is deterministic — two runs of the pure fold over the same
ordered event list yield bit-identical `AgentCoreState` — and the state is a
function of the event prefix alone: folding an extended log equals folding
the extension on top of the prefix's state. The fold takes no clock
argument, so no fold step can depend on wall-clock time sampled during
folding. -/
theorem foldEvents_deterministic :
    (∀ events : List CoreEvent, foldEvents events = foldEvents events) ∧
    (∀ events more : List CoreEvent,
      foldEvents (events ++ more) = List.foldl reduceEvent (foldEvents events) more) :=
  ⟨fun _ => rfl, fun events more => foldEvents_append events more⟩

/-- C4: when a request-triggering input arrives while request `R` is open,
the engine appends exactly the events
`[input item, CANCEL R, START rid]` — one cancellation for `R`, strictly
before the superseding start — and in every reachable log the number of
simultaneously open (unmatched) request starts never exceeds one. -/
theorem llm_cancel_before_start (inputs : List EngineInput) (item rid R : String)
    (hOpen : (foldEvents (runEngine inputs)).inFlightRequestId = some R) :
    runEngine (inputs ++ [EngineInput.userItem item true rid]) =
      runEngine inputs ++
        [CoreEvent.llmInputItem item, CoreEvent.llmRequestCancel R,
          CoreEvent.llmRequestStart rid] ∧
    (∀ other : List EngineInput, maxOpenCount (runEngine other) ≤ 1) := by
  constructor
  · rw [runEngine_append_one]
    simp only [stepEngine, hOpen]
  · intro other
    exact (engine_state_invariant other).2

/-- Witness for C4: after one triggering input opens request `r1`, a second
triggering input cancels `r1` before starting `r2`. -/
theorem llm_cancel_before_start_witness :
    (foldEvents (runEngine [EngineInput.userItem "hello" true "r1"])).inFlightRequestId =
      some "r1" ∧
    (runEngine ([EngineInput.userItem "hello" true "r1"] ++
        [EngineInput.userItem "again" true "r2"]) =
      runEngine [EngineInput.userItem "hello" true "r1"] ++
        [CoreEvent.llmInputItem "again", CoreEvent.llmRequestCancel "r1",
          CoreEvent.llmRequestStart "r2"] ∧
      (∀ other : List EngineInput, maxOpenCount (runEngine other) ≤ 1)) :=
  ⟨rfl, llm_cancel_before_start [EngineInput.userItem "hello" true "r1"]
    "again" "r2" "r1" rfl⟩

/-! ## Theorems about the status indicator renderer -/

theorem renderAux_lit (ctx : Json) (rest : List Char) :
    ∀ pre : List Char, '$' ∉ pre →
      renderAux ctx (pre ++ rest) RScan.outside =
        pre ++ renderAux ctx rest RScan.outside := by
  intro pre
  induction pre with
  | nil => intro _; rfl
  | cons c t ih =>
    intro h
    rw [List.mem_cons, not_or] at h
    obtain ⟨h1, h2⟩ := h
    have hc : ¬ c = '$' := fun e => h1 e.symm
    simp only [List.cons_append, renderAux, List.append_eq]
    rw [if_neg hc, ih h2]

theorem renderAux_inside (ctx : Json) (rest : List Char) :
    ∀ (expr acc : List Char), rbrace ∉ expr →
      renderAux ctx (expr ++ rbrace :: rest) (RScan.insideHole acc) =
        (evalTemplateExpr ctx (acc ++ expr)).data ++
          renderAux ctx rest RScan.outside := by
  intro expr
  induction expr with
  | nil => intro acc _; simp [renderAux]
  | cons c t ih =>
    intro acc h
    rw [List.mem_cons, not_or] at h
    obtain ⟨h1, h2⟩ := h
    have hc : ¬ c = rbrace := fun e => h1 e.symm
    simp only [List.cons_append, renderAux, List.append_eq]
    rw [if_neg hc, ih (acc ++ [c]) h2]
    simp [List.append_assoc]

theorem renderAux_hole (ctx : Json) (expr rest : List Char) (h : rbrace ∉ expr) :
    renderAux ctx ('$' :: lbrace :: (expr ++ rbrace :: rest)) RScan.outside =
      (evalTemplateExpr ctx expr).data ++ renderAux ctx rest RScan.outside := by
  have h3 := renderAux_inside ctx rest expr [] h
  simp only [List.nil_append] at h3
  simp [renderAux]
  exact h3

/-- C5: with no template, `resolveStatusIndicatorText` returns the fallback
`"🛠️ {toolName}..."` for every tool name and argument payload; in
particular `"exec"` yields `"🛠️ exec..."`. -/
theorem resolveStatusIndicatorText_fallback (toolName : String)
    (argsJson : Option Json) (templateContext : JsonFields) :
    resolveStatusIndicatorText toolName none argsJson templateContext =
      "🛠️ " ++ toolName ++ "..." ∧
    resolveStatusIndicatorText "exec" none none JsonFields.nil = "🛠️ exec..." :=
  ⟨rfl, rfl⟩

/-- C2: `buildSlackThreadStatusPayload` is a pure total function with exactly
the three specified branches: `null` clears the status; a value starting
with the writing marker yields the typing payload; any other value yields
the thinking payload. -/
theorem buildSlackThreadStatusPayload_spec :
    buildSlackThreadStatusPayload none =
      { status := "", loading_messages := none } ∧
    (∀ v : String, strStartsWith v writingMarker = true →
      buildSlackThreadStatusPayload (some v) =
        { status := "is typing...", loading_messages := some [v ++ "..."] }) ∧
    (∀ v : String, strStartsWith v writingMarker = false →
      buildSlackThreadStatusPayload (some v) =
        { status := "is thinking...", loading_messages := some [v ++ "..."] }) := by
  refine ⟨rfl, ?_, ?_⟩ <;> intro v h <;> simp [buildSlackThreadStatusPayload, h]

/-- Witness for C2 at the three unit-test inputs. -/
theorem buildSlackThreadStatusPayload_spec_witness :
    (strStartsWith "✏️ writing response" writingMarker = true ∧
      buildSlackThreadStatusPayload (some "✏️ writing response") =
        { status := "is typing...",
          loading_messages := some ["✏️ writing response..."] }) ∧
    (strStartsWith "🧠 thinking" writingMarker = false ∧
      buildSlackThreadStatusPayload (some "🧠 thinking") =
        { status := "is thinking...", loading_messages := some ["🧠 thinking..."] }) ∧
    buildSlackThreadStatusPayload none = { status := "", loading_messages := none } :=
  ⟨⟨rfl, buildSlackThreadStatusPayload_spec.2.1 "✏️ writing response" rfl⟩,
    ⟨rfl, buildSlackThreadStatusPayload_spec.2.2 "🧠 thinking" rfl⟩,
    buildSlackThreadStatusPayload_spec.1⟩

/-- C6: with a template and valid-JSON arguments, every `$\x7b...\x7d`
placeholder is evaluated against the context
`\x7bargs: parsedArgs, ...templateContext\x7d` and replaced by the resolved,
stringified value, with the surrounding literal text preserved; in
particular the template `"⚙️ $\x7bargs.command\x7d"` with arguments
`\x7b"command":"ls -la"\x7d` yields `"⚙️ ls -la"`. -/
theorem resolveStatusIndicatorText_template (toolName s : String)
    (pre expr suf : List Char) (fs templateContext : JsonFields)
    (hpre : '$' ∉ pre) (hexpr : rbrace ∉ expr)
    (hparse : parseJSON s = some (Json.obj fs)) :
    resolveStatusIndicatorText toolName
        (some (String.mk (pre ++ '$' :: lbrace :: (expr ++ rbrace :: suf))))
        (some (Json.str s)) templateContext =
      String.mk (pre ++
        ((ensureString (resolvePath
            (Json.obj (JsonFields.cons "args" (Json.obj fs) templateContext))
            (splitPath expr))).data ++
          renderAux (Json.obj (JsonFields.cons "args" (Json.obj fs) templateContext))
            suf RScan.outside)) ∧
    resolveStatusIndicatorText "exec" (some "⚙️ $\x7bargs.command\x7d")
      (some (Json.str "\x7b\"command\":\"ls -la\"\x7d")) JsonFields.nil =
      "⚙️ ls -la" := by
  constructor
  · simp only [resolveStatusIndicatorText, tryParseJSON, jsToStringCoerce, hparse,
      renderTemplate]
    congr 1
    rw [renderAux_lit _ _ pre hpre, renderAux_hole _ _ _ hexpr]
    rfl
  · rfl

/-- Witness for C6 at the unit-test input. -/
theorem resolveStatusIndicatorText_template_witness :
    '$' ∉ "⚙️ ".data ∧ rbrace ∉ "args.command".data ∧
    parseJSON "\x7b\"command\":\"ls -la\"\x7d" =
      some (Json.obj (JsonFields.cons "command" (Json.str "ls -la") JsonFields.nil)) ∧
    (resolveStatusIndicatorText "exec"
        (some (String.mk ("⚙️ ".data ++ '$' :: lbrace ::
          ("args.command".data ++ rbrace :: []))))
        (some (Json.str "\x7b\"command\":\"ls -la\"\x7d")) JsonFields.nil =
      String.mk ("⚙️ ".data ++
        ((ensureString (resolvePath
            (Json.obj (JsonFields.cons "args"
              (Json.obj (JsonFields.cons "command" (Json.str "ls -la") JsonFields.nil))
              JsonFields.nil))
            (splitPath "args.command".data))).data ++
          renderAux (Json.obj (JsonFields.cons "args"
              (Json.obj (JsonFields.cons "command" (Json.str "ls -la") JsonFields.nil))
              JsonFields.nil)) [] RScan.outside)) ∧
      resolveStatusIndicatorText "exec" (some "⚙️ $\x7bargs.command\x7d")
        (some (Json.str "\x7b\"command\":\"ls -la\"\x7d")) JsonFields.nil =
        "⚙️ ls -la") :=
  ⟨by decide, by decide, rfl,
    resolveStatusIndicatorText_template "exec" "\x7b\"command\":\"ls -la\"\x7d"
      "⚙️ ".data "args.command".data []
      (JsonFields.cons "command" (Json.str "ls -la") JsonFields.nil) JsonFields.nil
      (by decide) (by decide) rfl⟩

/-- C1: with a template and an `argsJson` string that is not valid JSON, the
arguments degrade to the empty object (the call still returns normally), so
every path into `args` resolves to `undefined` and substitutes the empty
string; in particular `"command: $\x7bargs.command\x7d"` over
`"\x7b invalid json"` yields `"command: "`. -/
theorem resolveStatusIndicatorText_invalid_json (toolName s template seg : String)
    (restPath : List String) (templateContext : JsonFields)
    (hbad : parseJSON s = none)
    (hctx : lookupField templateContext "args" = none) :
    resolveStatusIndicatorText toolName (some template) (some (Json.str s))
        templateContext =
      renderTemplate (Json.obj (JsonFields.cons "args" (Json.obj JsonFields.nil)
        templateContext)) template ∧
    ensureString (resolvePath (Json.obj (JsonFields.cons "args"
      (Json.obj JsonFields.nil) templateContext)) ("args" :: seg :: restPath)) = "" ∧
    resolveStatusIndicatorText "exec" (some "command: $\x7bargs.command\x7d")
      (some (Json.str "\x7b invalid json")) JsonFields.nil = "command: " := by
  refine ⟨?_, ?_, rfl⟩
  · simp only [resolveStatusIndicatorText, tryParseJSON, jsToStringCoerce, hbad]
  · simp [resolvePath, lookupField, hctx, ensureString]

/-- Witness for C1 at the unit-test input. -/
theorem resolveStatusIndicatorText_invalid_json_witness :
    parseJSON "\x7b invalid json" = none ∧
    lookupField JsonFields.nil "args" = none ∧
    (resolveStatusIndicatorText "exec" (some "command: $\x7bargs.command\x7d")
        (some (Json.str "\x7b invalid json")) JsonFields.nil =
      renderTemplate (Json.obj (JsonFields.cons "args" (Json.obj JsonFields.nil)
        JsonFields.nil)) "command: $\x7bargs.command\x7d" ∧
      ensureString (resolvePath (Json.obj (JsonFields.cons "args"
        (Json.obj JsonFields.nil) JsonFields.nil)) ["args", "command"]) = "" ∧
      resolveStatusIndicatorText "exec" (some "command: $\x7bargs.command\x7d")
        (some (Json.str "\x7b invalid json")) JsonFields.nil = "command: ") :=
  ⟨rfl, rfl, resolveStatusIndicatorText_invalid_json "exec" "\x7b invalid json"
    "command: $\x7bargs.command\x7d" "command" [] JsonFields.nil rfl rfl⟩

/-- C7: every evaluated template value that is not a string is serialized to
its canonical JSON text before substitution; strings pass through unchanged;
`null` and `undefined` substitute the empty string; the evaluation pipeline
substitutes placeholders through `ensureString`; in particular the object
`\x7bcommand:"ls", flags:["-l"]\x7d` substitutes as its compact JSON text. -/
theorem ensureString_serializes (j : Json) (v : String)
    (hstr : ∀ t, j ≠ Json.str t) (hnull : j ≠ Json.null) :
    ensureString (some j) = stringify j ∧
    ensureString none = "" ∧
    ensureString (some Json.null) = "" ∧
    ensureString (some (Json.str v)) = v ∧
    (∀ (ctx : Json) (expr : List Char),
      evalTemplateExpr ctx expr = ensureString (resolvePath ctx (splitPath expr))) ∧
    resolveStatusIndicatorText "exec" (some "payload: $\x7bargs\x7d")
      (some (Json.obj (JsonFields.cons "command" (Json.str "ls")
        (JsonFields.cons "flags" (Json.arr (JsonList.cons (Json.str "-l") JsonList.nil))
          JsonFields.nil)))) JsonFields.nil =
      "payload: \x7b\"command\":\"ls\",\"flags\":[\"-l\"]\x7d" := by
  refine ⟨?_, rfl, rfl, rfl, fun _ _ => rfl, rfl⟩
  cases j with
  | null => exact absurd rfl hnull
  | str t => exact absurd rfl (hstr t)
  | bool b => rfl
  | num n => rfl
  | arr elems => rfl
  | obj fields => rfl

/-- Witness for C7 at the non-string value `42`. -/
theorem ensureString_serializes_witness :
    (∀ t, Json.num 42 ≠ Json.str t) ∧ (Json.num 42 ≠ Json.null) ∧
    (ensureString (some (Json.num 42)) = stringify (Json.num 42) ∧
      ensureString none = "" ∧
      ensureString (some Json.null) = "" ∧
      ensureString (some (Json.str "x")) = "x" ∧
      (∀ (ctx : Json) (expr : List Char),
        evalTemplateExpr ctx expr = ensureString (resolvePath ctx (splitPath expr))) ∧
      resolveStatusIndicatorText "exec" (some "payload: $\x7bargs\x7d")
        (some (Json.obj (JsonFields.cons "command" (Json.str "ls")
          (JsonFields.cons "flags"
            (Json.arr (JsonList.cons (Json.str "-l") JsonList.nil))
            JsonFields.nil)))) JsonFields.nil =
        "payload: \x7b\"command\":\"ls\",\"flags\":[\"-l\"]\x7d") :=
  ⟨fun _ h => Json.noConfusion h, fun h => Json.noConfusion h,
    ensureString_serializes (Json.num 42) "x"
      (fun _ h => Json.noConfusion h) (fun h => Json.noConfusion h)⟩
